import Mathlib

/-!
Shallow embedding of `deluge/component.py`: a component lifecycle registry.

A component record holds a lifecycle state (Stopped / Started / Paused), an
update interval, an optional periodic timer handle (a twisted `LoopingCall`),
and overridable user hooks.  The registry maps names to component records and
names to declared dependency lists, and implements dependency-ordered start,
snapshot-based stop, pause/resume, periodic update dispatch and fault-isolated
shutdown.

User hooks are external code; their observable behaviour is modelled by
per-component data: a stop hook may deregister one other component
(`stopEffect`), a shutdown hook may raise (`shutdownRaises`), and every hook
invocation is recorded in an event trace.  Recursive registry operations
(dependency-ordered start and the mutually recursive stop/deregister pair)
take explicit fuel, since the Python recursion is unbounded on cyclic inputs.
Python exceptions are modelled as an error flag returned next to the mutated
registry (Python mutation is in place, so state survives an exception).
-/

namespace Deluge

/-- COMPONENT_STATE (component.py lines 39-43). -/
inductive CState
  | stopped
  | started
  | paused
deriving DecidableEq, Repr

/-- Python exceptions that the embedded operations can produce.
`keyError` is a failed dict lookup, `attributeError` an access to a missing
method or to an attribute of `None`, `timerNone` is `None.stop()`,
`timerNotRunning` the `AssertionError` from stopping a non-running
`LoopingCall`, and `fuelOut` marks exhausted recursion fuel (the Python code
recurses unboundedly there). -/
inductive Err
  | keyError
  | attributeError
  | timerNone
  | timerNotRunning
  | fuelOut
deriving DecidableEq, Repr

/-- Observable hook invocations, recorded in the registry trace. -/
inductive Ev
  | startHook (name : String)
  | stopHook (name : String)
  | updateHook (name : String)
  | shutdownHook (name : String)
  | shutdownErr (name : String)
deriving DecidableEq, Repr

/-- A twisted LoopingCall: the periodic timer primitive.  Only its
running/stopped status is relevant to the registry. -/
structure LoopingCall where
  running : Bool
deriving DecidableEq, Repr

/-- A component record (fields of class Component, lines 45-52), together
with the modelled behaviour of its overridable hooks: `stopEffect` is the
name the user stop hook deregisters (if any), `shutdownRaises` says whether
the user shutdown hook raises.  `hasUpdate` is the update capability
(`hasattr(self, "update")`). -/
structure Component where
  name : String
  interval : Nat
  hasUpdate : Bool
  state : CState
  timer : Option LoopingCall
  stopEffect : Option String
  shutdownRaises : Bool
deriving DecidableEq, Repr

/-- Association list lookup, modelling Python dict access by key. -/
def alLookup {α : Type} : List (String × α) → String → Option α
  | [], _ => none
  | p :: m, k => if p.1 = k then some p.2 else alLookup m k

/-- Association list insert-or-replace, modelling `d[k] = v`. -/
def alInsert {α : Type} : List (String × α) → String → α → List (String × α)
  | [], k, v => [(k, v)]
  | p :: m, k, v => if p.1 = k then (k, v) :: m else p :: alInsert m k v

/-- Association list erase, modelling `del d[k]`. -/
def alErase {α : Type} : List (String × α) → String → List (String × α)
  | [], _ => []
  | p :: m, k => if p.1 = k then alErase m k else p :: alErase m k

/-- The ComponentRegistry state (lines 92-95) plus the event trace of hook
invocations. -/
structure Registry where
  components : List (String × Component)
  depend : List (String × List String)
  trace : List Ev
deriving DecidableEq, Repr

/-- ComponentRegistry.__init__ (lines 93-95). -/
def Registry.empty : Registry := ⟨[], [], []⟩

/-- Append one event to the registry trace. -/
def emit (r : Registry) (e : Ev) : Registry :=
  { r with trace := r.trace ++ [e] }

/-- Replace the record stored under a name; models in-place mutation of the
object held in `self.components[k]`. -/
def setComp (r : Registry) (k : String) (c : Component) : Registry :=
  { r with components := alInsert r.components k c }

/-- ComponentRegistry.register (lines 97-102): store the record, and store
the dependency list only when one was given. -/
def regRegister (r : Registry) (name : String) (obj : Component)
    (dep : Option (List String)) : Registry :=
  { r with
    components := alInsert r.components name obj,
    depend := match dep with
      | some d => alInsert r.depend name d
      | none => r.depend }

/-- The fields a fresh component gets in Component.__init__ (lines 46-52):
state Stopped, no timer. -/
def newComponent (name : String) (interval : Nat) (hasUpdate : Bool)
    (se : Option String) (sr : Bool) : Component :=
  { name := name, interval := interval, hasUpdate := hasUpdate,
    state := .stopped, timer := none, stopEffect := se, shutdownRaises := sr }

/-- Component.__init__ (lines 46-52): constructing a component registers a
fresh Stopped record (with its dependency list) in the registry. -/
def componentInit (r : Registry) (name : String) (interval : Nat)
    (hasUpdate : Bool) (se : Option String) (sr : Bool)
    (dep : Option (List String)) : Registry :=
  regRegister r name (newComponent name interval hasUpdate se sr) dep

/-- ComponentRegistry.get (lines 111-113): `self.components[name]`,
KeyError when absent. -/
def regGet (r : Registry) (name : String) : Except Err Component :=
  match alLookup r.components name with
  | some c => .ok c
  | none => .error .keyError

/-- Component._start (lines 63-67): state becomes Started; if the component
has an update method, a fresh LoopingCall is created and started. -/
def compStart (c : Component) : Component :=
  if c.hasUpdate then
    { c with state := .started, timer := some { running := true } }
  else
    { c with state := .started }

/-- `self._timer.stop()` semantics: on `None` an AttributeError, on a
non-running LoopingCall the AssertionError of LoopingCall.stop, otherwise
the timer stops. -/
def timerStop : Option LoopingCall → Except Err (Option LoopingCall)
  | none => .error .timerNone
  | some t =>
    if t.running then .ok (some { t with running := false })
    else .error .timerNotRunning

/-- `try: self._timer.stop() except: pass` (lines 74-77 and 81-84): any
timer-cancellation error is swallowed and the timer field left unchanged. -/
def timerStopSwallow (t : Option LoopingCall) : Option LoopingCall :=
  match timerStop t with
  | .ok t2 => t2
  | .error _ => t

/-- Component._stop (lines 72-77). -/
def compStop (c : Component) : Component :=
  { c with state := .stopped, timer := timerStopSwallow c.timer }

/-- Component._pause (lines 79-84). -/
def compPause (c : Component) : Component :=
  { c with state := .paused, timer := timerStopSwallow c.timer }

/-- Component._resume (lines 86-87): just calls _start; note that the user
start hook is not part of _start. -/
def compResume (c : Component) : Component := compStart c

/-- Short-circuiting fold of a registry operation over a list of names:
models a Python `for` loop in which an uncaught exception aborts the loop
(leaving the registry as mutated so far). -/
def foldE (f : Registry → String → Registry × Option Err)
    (ns : List String) (r : Registry) : Registry × Option Err :=
  ns.foldl
    (fun acc n =>
      match acc with
      | (r1, some e) => (r1, some e)
      | (r1, none) => f r1 n)
    (r, none)

/-- The final step of stop_component (line 150): apply `_stop` to the
record as looked up after the user stop hook ran. -/
def stopApply (r2 : Registry) (name : String) : Registry × Option Err :=
  match alLookup r2.components name with
  | none => (r2, some .keyError)
  | some c2 => (setComp r2 name (compStop c2), none)

/-- ComponentRegistry.stop_component (lines 145-150) with explicit fuel.
If the component is not Stopped: the user stop hook runs (its modelled
effect is a call to module-level deregister, lines 104-109, here inlined),
then `_stop` is applied to the record as looked up after the hook. -/
def stopComponentF : Nat → Registry → String → Registry × Option Err
  | 0, r, _ => (r, some .fuelOut)
  | fuel + 1, r, name =>
    match alLookup r.components name with
    | none => (r, some .keyError)
    | some c =>
      if c.state = .stopped then (r, none)
      else
        match
          (match c.stopEffect with
           | none => (emit r (.stopHook name), none)
           | some m =>
             match alLookup (emit r (.stopHook name)).components m with
             | none => (emit r (.stopHook name), none)
             | some _ =>
               match stopComponentF fuel (emit r (.stopHook name)) m with
               | (r2, some e) => (r2, some e)
               | (r2, none) =>
                 ({ r2 with components := alErase r2.components m }, none))
        with
        | (r2, some e) => (r2, some e)
        | (r2, none) => stopApply r2 name

/-- ComponentRegistry.deregister (lines 104-109): no-op when the name is
absent, otherwise stop the component and delete its record. -/
def deregisterF (fuel : Nat) (r : Registry) (name : String) :
    Registry × Option Err :=
  match alLookup r.components name with
  | none => (r, none)
  | some _ =>
    match stopComponentF fuel r name with
    | (r1, some e) => (r1, some e)
    | (r1, none) => ({ r1 with components := alErase r1.components name }, none)

/-- The non-recursive tail of start_component (lines 127-132): only if the
component is currently Stopped, invoke the user start hook and `_start`. -/
def startBody (r1 : Registry) (name : String) : Registry × Option Err :=
  match alLookup r1.components name with
  | none => (r1, some .keyError)
  | some c =>
    if c.state = .stopped then
      (setComp (emit r1 (.startHook name)) name (compStart c), none)
    else (r1, none)

/-- ComponentRegistry.start_component (lines 120-132) with explicit fuel:
first recursively start declared dependencies in order, then apply the
only-if-stopped start step. -/
def startComponentF : Nat → Registry → String → Registry × Option Err
  | 0, r, _ => (r, some .fuelOut)
  | fuel + 1, r, name =>
    match
      (match alLookup r.depend name with
       | some deps => foldE (startComponentF fuel) deps r
       | none => (r, none))
    with
    | (r1, some e) => (r1, some e)
    | (r1, none) => startBody r1 name

/-- ComponentRegistry.start (lines 115-118): start every registered name. -/
def startAllF (fuel : Nat) (r : Registry) : Registry × Option Err :=
  foldE (startComponentF fuel) (r.components.map (fun p => p.1)) r

/-- ComponentRegistry.stop (lines 134-143): snapshot the keys, then stop
each name that is still present at the time of its visit. -/
def stopAllF (fuel : Nat) (r : Registry) : Registry × Option Err :=
  foldE
    (fun r1 n =>
      if (alLookup r1.components n).isSome then stopComponentF fuel r1 n
      else (r1, none))
    (r.components.map (fun p => p.1)) r

/-- ComponentRegistry.pause_component (lines 157-161). -/
def pauseComponent (r : Registry) (name : String) : Registry × Option Err :=
  match alLookup r.components name with
  | none => (r, some .keyError)
  | some c =>
    if c.state = .paused ∨ c.state = .stopped then (r, none)
    else (setComp r name (compPause c), none)

/-- ComponentRegistry.pause (lines 152-155). -/
def pauseAllF (r : Registry) : Registry × Option Err :=
  foldE pauseComponent (r.components.map (fun p => p.1)) r

/-- ComponentRegistry.resume_component (lines 168-171): only fires on a
Paused component, and then applies `_resume` (which is `_start`). -/
def resumeComponent (r : Registry) (name : String) : Registry × Option Err :=
  match alLookup r.components name with
  | none => (r, some .keyError)
  | some c =>
    if c.state = .paused then (setComp r name (compResume c), none)
    else (r, none)

/-- ComponentRegistry.resume (lines 163-166). -/
def resumeAllF (r : Registry) : Registry × Option Err :=
  foldE resumeComponent (r.components.map (fun p => p.1)) r

/-- One iteration of ComponentRegistry.update (lines 175-179): a Started
component gets `self.components[component].update()` — an AttributeError
when it has no update method, otherwise the update hook runs. -/
def updateStep (r : Registry) (name : String) : Registry × Option Err :=
  match alLookup r.components name with
  | none => (r, some .keyError)
  | some c =>
    if c.state = .started then
      if c.hasUpdate then (emit r (.updateHook name), none)
      else (r, some .attributeError)
    else (r, none)

/-- ComponentRegistry.update (lines 173-181). -/
def updateF (r : Registry) : Registry × Option Err :=
  foldE updateStep (r.components.map (fun p => p.1)) r

/-- One iteration of the shutdown hook loop (lines 188-194): the dict
lookup and the hook call sit inside `try/except Exception`, and a raising
hook is logged (here: a shutdownErr trace event) and absorbed. -/
def shutdownStep (r : Registry) (name : String) : Registry :=
  match alLookup r.components name with
  | none => emit r (.shutdownErr name)
  | some c =>
    if c.shutdownRaises then emit (emit r (.shutdownHook name)) (.shutdownErr name)
    else emit r (.shutdownHook name)

/-- ComponentRegistry.shutdown (lines 183-194): stop all components first,
then run every remaining component's shutdown hook with per-component
fault isolation. -/
def shutdownF (fuel : Nat) (r : Registry) : Registry × Option Err :=
  match stopAllF fuel r with
  | (r1, some e) => (r1, some e)
  | (r1, none) => ((r1.components.map (fun p => p.1)).foldl shutdownStep r1, none)

/-- Whether the record holds an armed (running) timer. -/
def timerArmed (c : Component) : Bool :=
  match c.timer with
  | some t => t.running
  | none => false

/-- Number of occurrences of an event in a trace. -/
def countEv (tr : List Ev) (e : Ev) : Nat :=
  (tr.filter (fun x => decide (x = e))).length

/-- Pointwise timer invariant of one record: it holds an armed (running)
timer exactly when it is Started and update-capable. -/
def PComp (c : Component) : Prop :=
  timerArmed c = true ↔ (c.state = CState.started ∧ c.hasUpdate = true)

/-- The timer-handle invariant over armed timers: every record holds a
running timer exactly when it is Started and update-capable. -/
def TimerInv (r : Registry) : Prop :=
  ∀ p ∈ r.components, PComp p.2

/-- The timer-handle invariant as the specification words it (a timer handle
is *present* iff Started and update-capable); stated for comparison with the
code, which keeps the canceled handle around. -/
def TimerHandleInvClaim (r : Registry) : Prop :=
  ∀ p ∈ r.components,
    (p.2.timer.isSome = true ↔ (p.2.state = CState.started ∧ p.2.hasUpdate = true))

instance (c : Component) : Decidable (PComp c) := by
  unfold PComp
  infer_instance

instance (r : Registry) : Decidable (TimerInv r) := by
  unfold TimerInv
  exact List.decidableBAll _ _

instance (r : Registry) : Decidable (TimerHandleInvClaim r) := by
  unfold TimerHandleInvClaim
  exact List.decidableBAll _ _

/-! ### Association-list lemmas -/

theorem alLookup_mem {α : Type} {m : List (String × α)} {k : String} {v : α}
    (h : alLookup m k = some v) : (k, v) ∈ m := by
  induction m with
  | nil => exact absurd h (by simp [alLookup])
  | cons p m ih =>
    obtain ⟨a, b⟩ := p
    rw [alLookup] at h
    by_cases hp : a = k
    · rw [if_pos hp] at h
      obtain rfl : b = v := Option.some.inj h
      subst hp
      exact List.mem_cons_self _ _
    · exact List.mem_cons_of_mem _ (ih (by rwa [if_neg hp] at h))

theorem alLookup_alInsert_self {α : Type} (m : List (String × α)) (k : String)
    (v : α) : alLookup (alInsert m k v) k = some v := by
  induction m with
  | nil => simp [alInsert, alLookup]
  | cons p m ih =>
    obtain ⟨a, b⟩ := p
    by_cases h : a = k
    · simp [alInsert, alLookup, h]
    · simp [alInsert, alLookup, h, ih]

theorem alLookup_alInsert_ne {α : Type} {m : List (String × α)} {k q : String}
    {v : α} (h : q ≠ k) : alLookup (alInsert m k v) q = alLookup m q := by
  induction m with
  | nil => simp [alInsert, alLookup, Ne.symm h]
  | cons p m ih =>
    obtain ⟨a, b⟩ := p
    by_cases hak : a = k
    · subst hak
      simp [alInsert, alLookup, Ne.symm h]
    · by_cases haq : a = q
      · simp [alInsert, alLookup, hak, haq, h]
      · simp [alInsert, alLookup, hak, haq, ih]

theorem alLookup_alErase_self {α : Type} (m : List (String × α)) (k : String) :
    alLookup (alErase m k) k = none := by
  induction m with
  | nil => simp [alErase, alLookup]
  | cons p m ih =>
    obtain ⟨a, b⟩ := p
    by_cases h : a = k
    · simp [alErase, h, ih]
    · simp [alErase, alLookup, h, ih]

theorem alLookup_alErase_ne {α : Type} {m : List (String × α)} {k q : String}
    (h : q ≠ k) : alLookup (alErase m k) q = alLookup m q := by
  induction m with
  | nil => simp [alErase]
  | cons p m ih =>
    obtain ⟨a, b⟩ := p
    by_cases hak : a = k
    · subst hak
      simp [alErase, alLookup, Ne.symm h, ih]
    · by_cases haq : a = q
      · simp [alErase, alLookup, hak, haq, h]
      · simp [alErase, alLookup, hak, haq, ih]

theorem mem_alInsert {α : Type} {m : List (String × α)} {k : String} {v : α}
    {q : String × α} (h : q ∈ alInsert m k v) : q = (k, v) ∨ q ∈ m := by
  induction m with
  | nil => simpa [alInsert] using h
  | cons p m ih =>
    by_cases hp : p.1 = k
    · rw [alInsert, if_pos hp] at h
      rcases List.mem_cons.mp h with h1 | h1
      · exact Or.inl h1
      · exact Or.inr (List.mem_cons_of_mem _ h1)
    · rw [alInsert, if_neg hp] at h
      rcases List.mem_cons.mp h with h1 | h1
      · exact Or.inr (h1 ▸ List.mem_cons_self _ _)
      · rcases ih h1 with h2 | h2
        · exact Or.inl h2
        · exact Or.inr (List.mem_cons_of_mem _ h2)

theorem mem_alErase {α : Type} {m : List (String × α)} {k : String}
    {q : String × α} (h : q ∈ alErase m k) : q ∈ m := by
  induction m with
  | nil => simp [alErase] at h
  | cons p m ih =>
    by_cases hp : p.1 = k
    · rw [alErase, if_pos hp] at h
      exact List.mem_cons_of_mem _ (ih h)
    · rw [alErase, if_neg hp] at h
      rcases List.mem_cons.mp h with h1 | h1
      · exact h1 ▸ List.mem_cons_self _ _
      · exact List.mem_cons_of_mem _ (ih h1)

theorem alLookup_isSome_of_mem_keys {α : Type} {m : List (String × α)}
    {n : String} (h : n ∈ m.map (fun p => p.1)) : (alLookup m n).isSome := by
  induction m with
  | nil => simp at h
  | cons p m ih =>
    obtain ⟨a, b⟩ := p
    by_cases ha : a = n
    · simp [alLookup, ha]
    · rw [List.map_cons, List.mem_cons] at h
      rcases h with h | h
      · exact absurd h.symm ha
      · simpa [alLookup, ha] using ih h

/-! ### Short-circuit fold lemmas -/

theorem foldE_nil (f : Registry → String → Registry × Option Err)
    (r : Registry) : foldE f [] r = (r, none) := rfl

theorem foldl_err (f : Registry → String → Registry × Option Err)
    (ns : List String) (r : Registry) (e : Err) :
    ns.foldl
      (fun acc n =>
        match acc with
        | (r1, some e) => (r1, some e)
        | (r1, none) => f r1 n)
      (r, some e) = (r, some e) := by
  induction ns with
  | nil => rfl
  | cons n ns ih => simpa [List.foldl_cons] using ih

theorem foldE_cons (f : Registry → String → Registry × Option Err)
    (n : String) (ns : List String) (r : Registry) :
    foldE f (n :: ns) r =
      match f r n with
      | (r1, some e) => (r1, some e)
      | (r1, none) => foldE f ns r1 := by
  rw [foldE, List.foldl_cons]
  rcases hfn : f r n with ⟨r1, e?⟩
  cases e? with
  | some e => simpa [hfn] using foldl_err f ns r1 e
  | none => simp [hfn, foldE]

theorem foldE_inv (f : Registry → String → Registry × Option Err)
    (Q : Registry → Prop) (hf : ∀ r n, Q r → Q (f r n).1) :
    ∀ ns r, Q r → Q (foldE f ns r).1 := by
  intro ns
  induction ns with
  | nil => intro r h; simpa [foldE_nil] using h
  | cons n ns ih =>
    intro r h
    rw [foldE_cons]
    rcases hfn : f r n with ⟨r1, e?⟩
    have h1 : Q r1 := by simpa [hfn] using hf r n h
    cases e? with
    | none => exact ih r1 h1
    | some e => exact h1

theorem foldE_err_cases (f : Registry → String → Registry × Option Err)
    (P : Option Err → Prop) (hnone : P none) (hf : ∀ r n, P (f r n).2) :
    ∀ ns r, P (foldE f ns r).2 := by
  intro ns
  induction ns with
  | nil => intro r; simpa [foldE_nil] using hnone
  | cons n ns ih =>
    intro r
    rw [foldE_cons]
    rcases hfn : f r n with ⟨r1, e?⟩
    cases e? with
    | none => exact ih r1
    | some e => simpa [hfn] using hf r n

/-! ### Concrete scenario registries used by counterexamples and witnesses -/

/-- One update-capable component, registered fresh. -/
def rX0 : Registry := componentInit Registry.empty "x" 1 true none false none

/-- ... after start_component. -/
def rX1 : Registry := (startComponentF 1 rX0 "x").1

/-- ... after start_component then pause_component. -/
def rX2 : Registry := (pauseComponent rX1 "x").1

/-- ... after start_component, pause_component, resume_component. -/
def rX3 : Registry := (resumeComponent rX2 "x").1

/-- ... after start_component then stop_component. -/
def rX4 : Registry := (stopComponentF 1 rX1 "x").1

/-- The record of "x" as it stands in `rX2` (paused, canceled timer kept). -/
def cXPaused : Component :=
  { name := "x", interval := 1, hasUpdate := true, state := .paused,
    timer := some { running := false }, stopEffect := none,
    shutdownRaises := false }

/-! ### C1 — resume_component -/

/-- C1 counterexample: in the concrete run start_component, pause_component,
resume_component on an update-capable component, the resume transition
succeeds (Paused to Started) yet appends no event to the trace: the user
start hook ran exactly once (at start_component) and is not re-invoked by
resume, refuting the claim that resume re-invokes the user start hook. -/
theorem resume_no_user_hook_counterexample :
    (alLookup rX2.components "x").map Component.state = some CState.paused ∧
    (alLookup rX3.components "x").map Component.state = some CState.started ∧
    rX3.trace = rX2.trace ∧
    countEv rX3.trace (.startHook "x") = 1 := by decide

/-- C1 (amended): resume_component on a Paused component applies `_start`
(not the full user-visible start sequence): the state becomes Started and,
when the component is update-capable, the periodic timer is re-armed, but
the user start hook is not invoked again (the trace is unchanged, because
`_resume` calls only `_start`). -/
theorem resume_component_restarts_without_user_hook (r : Registry)
    (name : String) (c : Component) (hc : alLookup r.components name = some c)
    (hp : c.state = .paused) :
    resumeComponent r name = (setComp r name (compStart c), none) ∧
    (compStart c).state = .started ∧
    (c.hasUpdate = true → timerArmed (compStart c) = true) ∧
    (setComp r name (compStart c)).trace = r.trace := by
  refine ⟨?_, ?_, ?_, rfl⟩
  · simp [resumeComponent, hc, hp, compResume]
  · by_cases h : c.hasUpdate <;> simp [compStart, h]
  · intro h
    simp [compStart, h, timerArmed]

/-- Witness for the amended C1 theorem at the concrete paused registry. -/
theorem resume_component_restarts_without_user_hook_witness :
    (alLookup rX2.components "x" = some cXPaused ∧ cXPaused.state = .paused) ∧
    (resumeComponent rX2 "x" = (setComp rX2 "x" (compStart cXPaused), none) ∧
     (compStart cXPaused).state = .started ∧
     (cXPaused.hasUpdate = true → timerArmed (compStart cXPaused) = true) ∧
     (setComp rX2 "x" (compStart cXPaused)).trace = rX2.trace) :=
  ⟨⟨by decide, by decide⟩,
    resume_component_restarts_without_user_hook rX2 "x" cXPaused (by decide)
      (by decide)⟩

/-! ### C2 — deregister -/

/-- One component registered with a declared dependency list. -/
def rDep : Registry :=
  componentInit Registry.empty "a" 1 false none false (some ["b"])

/-- C2 counterexample: deregister of a present name removes the component
record but leaves the name-to-dependency-list entry in place, refuting the
claim that both mapping entries are removed. -/
theorem deregister_keeps_depend_counterexample :
    (deregisterF 1 rDep "a").2 = none ∧
    alLookup (deregisterF 1 rDep "a").1.components "a" = none ∧
    alLookup (deregisterF 1 rDep "a").1.depend "a" = some ["b"] := by decide

/-- C2 (amended): deregister of an absent name is a no-op; deregister of a
present name (here with an effect-free stop hook) forces the component to
Stopped — running its user stop hook exactly when it was not already
Stopped — and removes the name-to-component entry, but leaves the
dependency mapping entirely untouched. -/
theorem deregister_removes_component_entry_only :
    (∀ fuel r name, alLookup r.components name = none →
      deregisterF fuel r name = (r, none)) ∧
    (∀ fuel r name c, alLookup r.components name = some c →
      c.stopEffect = none →
      ((deregisterF (fuel + 1) r name).2 = none ∧
       alLookup (deregisterF (fuel + 1) r name).1.components name = none ∧
       (deregisterF (fuel + 1) r name).1.depend = r.depend ∧
       (deregisterF (fuel + 1) r name).1.trace =
         (if c.state = .stopped then r.trace
          else r.trace ++ [Ev.stopHook name]))) := by
  constructor
  · intro fuel r name h
    simp [deregisterF, h]
  · intro fuel r name c hc heff
    by_cases hs : c.state = .stopped
    · simp [deregisterF, hc, stopComponentF, hs, alLookup_alErase_self]
    · simp [deregisterF, hc, stopComponentF, stopApply, hs, heff, emit,
        setComp, alLookup_alInsert_self, alLookup_alErase_self]

/-- Witness for the amended C2 theorem: the absent-name part at the empty
registry, and the present-name part at the one-component registry. -/
theorem deregister_removes_component_entry_only_witness :
    (alLookup Registry.empty.components "z" = none ∧
     deregisterF 5 Registry.empty "z" = (Registry.empty, none)) ∧
    (alLookup rDep.components "a" = some (newComponent "a" 1 false none false) ∧
     (newComponent "a" 1 false none false).stopEffect = none ∧
     ((deregisterF 1 rDep "a").2 = none ∧
      alLookup (deregisterF 1 rDep "a").1.components "a" = none ∧
      (deregisterF 1 rDep "a").1.depend = rDep.depend ∧
      (deregisterF 1 rDep "a").1.trace =
        (if (newComponent "a" 1 false none false).state = .stopped then rDep.trace
         else rDep.trace ++ [Ev.stopHook "a"]))) :=
  ⟨⟨by decide, deregister_removes_component_entry_only.1 5 Registry.empty "z"
      (by decide)⟩,
   ⟨by decide, by decide,
    deregister_removes_component_entry_only.2 0 rDep "a"
      (newComponent "a" 1 false none false) (by decide) (by decide)⟩⟩

/-! ### C10 — register replaces the record, keeps old dependencies -/

/-- C10: re-registering a name with dependencies=None replaces the component
record with the fresh one but leaves the previously declared dependency
list for that name in place in the dependency mapping, which is exactly
what a later start_component consults. -/
theorem register_none_keeps_old_dependencies (r : Registry) (name : String)
    (ds : List String) (i : Nat) (hu : Bool) (se : Option String) (sr : Bool)
    (hd : alLookup r.depend name = some ds) :
    (componentInit r name i hu se sr none).depend = r.depend ∧
    alLookup (componentInit r name i hu se sr none).components name =
      some (newComponent name i hu se sr) ∧
    alLookup (componentInit r name i hu se sr none).depend name = some ds := by
  refine ⟨rfl, ?_, hd⟩
  simp [componentInit, regRegister, alLookup_alInsert_self]

/-- Witness for C10 at a concrete registry with a declared dependency. -/
theorem register_none_keeps_old_dependencies_witness :
    alLookup rDep.depend "a" = some ["b"] ∧
    ((componentInit rDep "a" 2 true none false none).depend = rDep.depend ∧
     alLookup (componentInit rDep "a" 2 true none false none).components "a" =
       some (newComponent "a" 2 true none false) ∧
     alLookup (componentInit rDep "a" 2 true none false none).depend "a" =
       some ["b"]) :=
  ⟨by decide,
   register_none_keeps_old_dependencies rDep "a" ["b"] 2 true none false
     (by decide)⟩

/-! ### C4 — start_component on a Started component -/

theorem countEv_append (tr1 tr2 : List Ev) (e : Ev) :
    countEv (tr1 ++ tr2) e = countEv tr1 e + countEv tr2 e := by
  simp [countEv, List.filter_append]

theorem countEv_startHook_single_ne {m name : String} (h : ¬m = name) :
    countEv [Ev.startHook m] (Ev.startHook name) = 0 := by
  simp [countEv, h]

/-- The only-if-stopped start step never touches the record of a name whose
component is Started and never emits a start hook event for it. -/
theorem startBody_started_frame {name : String} {c : Component}
    (hs : c.state = .started) (r1 : Registry) (m : String)
    (h1 : alLookup r1.components name = some c) :
    alLookup (startBody r1 m).1.components name = some c ∧
    countEv (startBody r1 m).1.trace (.startHook name) =
      countEv r1.trace (.startHook name) := by
  by_cases hm : m = name
  · subst hm
    simp [startBody, h1, hs]
  · have hne : name ≠ m := fun hne => hm hne.symm
    cases h2 : alLookup r1.components m with
    | none => simp [startBody, h2, h1]
    | some cm =>
      by_cases hcm : cm.state = .stopped
      · simp [startBody, h2, hcm, setComp, emit, alLookup_alInsert_ne hne,
          h1, countEv_append, countEv_startHook_single_ne hm]
      · simp [startBody, h2, hcm, h1]

/-- start_component (at any fuel, on any name) never modifies the record of
a name whose component is Started, and never emits a start hook event for
that name. -/
theorem startComponentF_started_frame {name : String} {c : Component}
    (hs : c.state = .started) :
    ∀ fuel r m, alLookup r.components name = some c →
      (alLookup (startComponentF fuel r m).1.components name = some c ∧
       countEv (startComponentF fuel r m).1.trace (.startHook name) =
         countEv r.trace (.startHook name)) := by
  intro fuel
  induction fuel with
  | zero => exact fun r m hc => ⟨hc, rfl⟩
  | succ fuel ih =>
    intro r m hc
    have hstep :
        alLookup (match alLookup r.depend m with
            | some deps => foldE (startComponentF fuel) deps r
            | none => (r, none)).1.components name = some c ∧
        countEv (match alLookup r.depend m with
            | some deps => foldE (startComponentF fuel) deps r
            | none => (r, none)).1.trace (.startHook name) =
          countEv r.trace (.startHook name) := by
      cases hd : alLookup r.depend m with
      | none => exact ⟨hc, rfl⟩
      | some deps =>
        exact foldE_inv (startComponentF fuel)
          (fun r2 => alLookup r2.components name = some c ∧
            countEv r2.trace (.startHook name) =
              countEv r.trace (.startHook name))
          (fun r2 n hq => by
            obtain ⟨h1, h2⟩ := hq
            obtain ⟨h3, h4⟩ := ih r2 n h1
            exact ⟨h3, h4.trans h2⟩)
          deps r ⟨hc, rfl⟩
    rw [startComponentF]
    rcases hmatch : (match alLookup r.depend m with
        | some deps => foldE (startComponentF fuel) deps r
        | none => (r, none)) with ⟨r1, e1⟩
    rw [hmatch] at hstep
    rw [hmatch]
    cases e1 with
    | some e => exact hstep
    | none =>
      obtain ⟨h1, h2⟩ := hstep
      obtain ⟨h3, h4⟩ := startBody_started_frame hs r1 m h1
      exact ⟨h3, h4.trans h2⟩

/-- C4: for a registered component currently Started, start_component on its
name leaves that component's record (state and timer included) unchanged and
does not invoke its user start hook — for any recursion fuel, and even on
runs in which a dependency lookup fails. -/
theorem start_component_noop_on_started (fuel : Nat) (r : Registry)
    (name : String) (c : Component)
    (hc : alLookup r.components name = some c) (hs : c.state = .started) :
    alLookup (startComponentF fuel r name).1.components name = some c ∧
    countEv (startComponentF fuel r name).1.trace (.startHook name) =
      countEv r.trace (.startHook name) :=
  startComponentF_started_frame hs fuel r name hc

/-- The record of "x" as it stands in `rX1` (started, armed timer). -/
def cXStarted : Component :=
  { name := "x", interval := 1, hasUpdate := true, state := .started,
    timer := some { running := true }, stopEffect := none,
    shutdownRaises := false }

/-- Witness for C4 at the concrete started registry. -/
theorem start_component_noop_on_started_witness :
    (alLookup rX1.components "x" = some cXStarted ∧
     cXStarted.state = .started) ∧
    (alLookup (startComponentF 1 rX1 "x").1.components "x" = some cXStarted ∧
     countEv (startComponentF 1 rX1 "x").1.trace (.startHook "x") =
       countEv rX1.trace (.startHook "x")) :=
  ⟨⟨by decide, by decide⟩,
   start_component_noop_on_started 1 rX1 "x" cXStarted (by decide) (by decide)⟩

/-! ### C8 — timer-cancellation errors are always swallowed -/

/-- The errors the stop/pause paths can surface: success, a KeyError from a
dict lookup, or exhausted recursion fuel — never a timer error. -/
def stopErrRange (e : Option Err) : Prop :=
  e = none ∨ e = some .keyError ∨ e = some .fuelOut

theorem stopErrRange_no_timer {e : Option Err} (h : stopErrRange e) :
    e ≠ some .timerNone ∧ e ≠ some .timerNotRunning := by
  rcases h with h | h | h <;> subst h <;> exact ⟨by simp, by simp⟩

theorem stopApply_err (r : Registry) (name : String) :
    stopErrRange (stopApply r name).2 := by
  rw [stopApply]
  split
  · right; left; rfl
  · left; rfl

theorem stopComponentF_err : ∀ fuel r name,
    stopErrRange (stopComponentF fuel r name).2 := by
  intro fuel
  induction fuel with
  | zero => intro r name; right; right; rfl
  | succ fuel ih =>
    intro r name
    rw [stopComponentF]
    split
    · right; left; rfl
    · split
      · left; rfl
      · split
        · rename_i r1 e heq
          split at heq
          · simp at heq
          · split at heq
            · simp at heq
            · split at heq
              · rename_i r2 e2 heq2
                injection heq with h1 h2
                subst h1
                have h : stopErrRange (r2, some e2).2 := by
                  rw [← heq2]
                  exact ih _ _
                rw [h2] at h
                exact h
              · simp at heq
        · exact stopApply_err _ _

theorem pauseComponent_err (r : Registry) (name : String) :
    stopErrRange (pauseComponent r name).2 := by
  rw [pauseComponent]
  split
  · right; left; rfl
  · split
    · left; rfl
    · left; rfl

theorem deregisterF_err (fuel : Nat) (r : Registry) (name : String) :
    stopErrRange (deregisterF fuel r name).2 := by
  rw [deregisterF]
  split
  · left; rfl
  · split
    · rename_i heq
      have h := stopComponentF_err fuel r name
      rw [heq] at h
      exact h
    · left; rfl

theorem stopAllF_err (fuel : Nat) (r : Registry) :
    stopErrRange (stopAllF fuel r).2 := by
  rw [stopAllF]
  exact foldE_err_cases _ stopErrRange (Or.inl rfl)
    (fun r1 n => by
      by_cases h : (alLookup r1.components n).isSome
      · rw [if_pos h]
        exact stopComponentF_err fuel r1 n
      · rw [if_neg h]
        exact Or.inl rfl)
    _ _

theorem pauseAllF_err (r : Registry) : stopErrRange (pauseAllF r).2 := by
  rw [pauseAllF]
  exact foldE_err_cases _ stopErrRange (Or.inl rfl)
    (fun r1 n => pauseComponent_err r1 n) _ _

theorem shutdownF_err (fuel : Nat) (r : Registry) :
    stopErrRange (shutdownF fuel r).2 := by
  rw [shutdownF]
  split
  · rename_i heq
    have h := stopAllF_err fuel r
    rw [heq] at h
    exact h
  · left; rfl

/-- C8: the timer cancellation performed on the transitions out of Started
never raises and is never surfaced.  The raw cancel does raise on a
never-armed timer (`timerNone`) and on an already-canceled one
(`timerNotRunning`), but `_stop` and `_pause` swallow it: they always
produce a Stopped/Paused record with a disarmed timer.  Consequently no
stop/pause-path registry operation (stop_component, deregister,
pause_component, stop, pause, shutdown) ever returns a timer-cancellation
error to its caller, at any fuel and on any registry. -/
theorem timer_cancel_never_surfaces :
    (timerStop none = .error .timerNone) ∧
    (timerStop (some { running := false }) = .error .timerNotRunning) ∧
    (∀ c : Component,
      (compStop c).state = .stopped ∧ timerArmed (compStop c) = false ∧
      (compPause c).state = .paused ∧ timerArmed (compPause c) = false) ∧
    (∀ fuel r name,
      (stopComponentF fuel r name).2 ≠ some .timerNone ∧
      (stopComponentF fuel r name).2 ≠ some .timerNotRunning ∧
      (deregisterF fuel r name).2 ≠ some .timerNone ∧
      (deregisterF fuel r name).2 ≠ some .timerNotRunning ∧
      (pauseComponent r name).2 ≠ some .timerNone ∧
      (pauseComponent r name).2 ≠ some .timerNotRunning ∧
      (stopAllF fuel r).2 ≠ some .timerNone ∧
      (stopAllF fuel r).2 ≠ some .timerNotRunning ∧
      (pauseAllF r).2 ≠ some .timerNone ∧
      (pauseAllF r).2 ≠ some .timerNotRunning ∧
      (shutdownF fuel r).2 ≠ some .timerNone ∧
      (shutdownF fuel r).2 ≠ some .timerNotRunning) := by
  refine ⟨rfl, rfl, ?_, ?_⟩
  · intro c
    refine ⟨rfl, ?_, rfl, ?_⟩ <;>
      · rcases hc : c.timer with _ | ⟨⟨b⟩⟩
        · simp [compStop, compPause, timerArmed, timerStopSwallow,
            timerStop, hc]
        · cases b <;>
            simp [compStop, compPause, timerArmed, timerStopSwallow,
              timerStop, hc]
  · intro fuel r name
    obtain ⟨h1, h2⟩ := stopErrRange_no_timer (stopComponentF_err fuel r name)
    obtain ⟨h3, h4⟩ := stopErrRange_no_timer (deregisterF_err fuel r name)
    obtain ⟨h5, h6⟩ := stopErrRange_no_timer (pauseComponent_err r name)
    obtain ⟨h7, h8⟩ := stopErrRange_no_timer (stopAllF_err fuel r)
    obtain ⟨h9, h10⟩ := stopErrRange_no_timer (pauseAllF_err r)
    obtain ⟨h11, h12⟩ := stopErrRange_no_timer (shutdownF_err fuel r)
    exact ⟨h1, h2, h3, h4, h5, h6, h7, h8, h9, h10, h11, h12⟩

/-! ### C9 — the timer invariant -/

theorem PComp_new (name : String) (i : Nat) (hu : Bool) (se : Option String)
    (sr : Bool) : PComp (newComponent name i hu se sr) := by
  simp [PComp, newComponent, timerArmed]

theorem PComp_compStart {c : Component} (h : PComp c) : PComp (compStart c) := by
  obtain ⟨nm, i, hu, st, tm, se, sr⟩ := c
  cases hu <;> rcases tm with _ | ⟨⟨b⟩⟩ <;>
    simp_all [PComp, compStart, timerArmed]

theorem PComp_compStop (c : Component) : PComp (compStop c) := by
  obtain ⟨nm, i, hu, st, tm, se, sr⟩ := c
  rcases tm with _ | ⟨⟨b⟩⟩
  · simp [PComp, compStop, timerArmed, timerStopSwallow, timerStop]
  · cases b <;>
      simp [PComp, compStop, timerArmed, timerStopSwallow, timerStop]

theorem PComp_compPause (c : Component) : PComp (compPause c) := by
  obtain ⟨nm, i, hu, st, tm, se, sr⟩ := c
  rcases tm with _ | ⟨⟨b⟩⟩
  · simp [PComp, compPause, timerArmed, timerStopSwallow, timerStop]
  · cases b <;>
      simp [PComp, compPause, timerArmed, timerStopSwallow, timerStop]

theorem TimerInv_lookup {r : Registry} (hr : TimerInv r) {k : String}
    {c : Component} (h : alLookup r.components k = some c) : PComp c :=
  hr (k, c) (alLookup_mem h)

theorem TimerInv_setComp {r : Registry} {k : String} {c : Component}
    (hr : TimerInv r) (hc : PComp c) : TimerInv (setComp r k c) := by
  intro p hp
  rcases mem_alInsert hp with h | h
  · rw [h]
    exact hc
  · exact hr p h

theorem TimerInv_emit {r : Registry} (hr : TimerInv r) (e : Ev) :
    TimerInv (emit r e) := hr

theorem TimerInv_componentInit {r : Registry} (hr : TimerInv r)
    (name : String) (i : Nat) (hu : Bool) (se : Option String) (sr : Bool)
    (dep : Option (List String)) :
    TimerInv (componentInit r name i hu se sr dep) := by
  intro p hp
  rcases mem_alInsert hp with h | h
  · rw [h]
    exact PComp_new name i hu se sr
  · exact hr p h

theorem TimerInv_stopApply {r : Registry} (hr : TimerInv r) (name : String) :
    TimerInv (stopApply r name).1 := by
  rw [stopApply]
  split
  · exact hr
  · exact TimerInv_setComp hr (PComp_compStop _)

theorem TimerInv_startBody {r : Registry} (hr : TimerInv r) (name : String) :
    TimerInv (startBody r name).1 := by
  rw [startBody]
  split
  · exact hr
  · split
    · rename_i c hc h2
      exact TimerInv_setComp (TimerInv_emit hr _)
        (PComp_compStart (TimerInv_lookup hr hc))
    · exact hr

theorem TimerInv_stopComponentF : ∀ fuel r name, TimerInv r →
    TimerInv (stopComponentF fuel r name).1 := by
  intro fuel
  induction fuel with
  | zero => intro r name hr; exact hr
  | succ fuel ih =>
    intro r name hr
    rw [stopComponentF]
    split
    · exact hr
    · split
      · exact hr
      · split
        · rename_i r1 e heq
          split at heq
          · simp at heq
          · split at heq
            · simp at heq
            · split at heq
              · rename_i r2 e2 heq2
                injection heq with h1 h2
                subst h1
                have h : TimerInv ((r2, some e2) : Registry × Option Err).1 := by
                  rw [← heq2]
                  exact ih _ _ (TimerInv_emit hr _)
                exact h
              · simp at heq
        · rename_i r2 heq
          have h2 : TimerInv r2 := by
            split at heq
            · injection heq with h1 _
              subst h1
              exact TimerInv_emit hr _
            · split at heq
              · injection heq with h1 _
                subst h1
                exact TimerInv_emit hr _
              · split at heq
                · simp at heq
                · rename_i r3 heq3
                  injection heq with h1 _
                  subst h1
                  have h : TimerInv ((r3, (none : Option Err)) :
                      Registry × Option Err).1 := by
                    rw [← heq3]
                    exact ih _ _ (TimerInv_emit hr _)
                  exact fun p hp => h p (mem_alErase hp)
          exact TimerInv_stopApply h2 name

theorem TimerInv_deregisterF (fuel : Nat) (r : Registry) (name : String)
    (hr : TimerInv r) : TimerInv (deregisterF fuel r name).1 := by
  rw [deregisterF]
  split
  · exact hr
  · split
    · rename_i r1 e heq
      have h : TimerInv ((r1, some e) : Registry × Option Err).1 := by
        rw [← heq]
        exact TimerInv_stopComponentF fuel r name hr
      exact h
    · rename_i r1 heq
      have h : TimerInv ((r1, (none : Option Err)) : Registry × Option Err).1 := by
        rw [← heq]
        exact TimerInv_stopComponentF fuel r name hr
      exact fun p hp => h p (mem_alErase hp)

theorem TimerInv_startComponentF : ∀ fuel r name, TimerInv r →
    TimerInv (startComponentF fuel r name).1 := by
  intro fuel
  induction fuel with
  | zero => intro r name hr; exact hr
  | succ fuel ih =>
    intro r name hr
    rw [startComponentF]
    rcases hmatch : (match alLookup r.depend name with
        | some deps => foldE (startComponentF fuel) deps r
        | none => (r, none)) with ⟨r1, e1⟩
    have h1 : TimerInv r1 := by
      have h0 : TimerInv (match alLookup r.depend name with
          | some deps => foldE (startComponentF fuel) deps r
          | none => (r, none)).1 := by
        cases hd : alLookup r.depend name with
        | none => exact hr
        | some deps =>
          exact foldE_inv _ TimerInv (fun r2 n h2 => ih r2 n h2) deps r hr
      rw [hmatch] at h0
      exact h0
    rw [hmatch]
    cases e1 with
    | some e => exact h1
    | none => exact TimerInv_startBody h1 name

theorem TimerInv_startAllF (fuel : Nat) (r : Registry) (hr : TimerInv r) :
    TimerInv (startAllF fuel r).1 := by
  rw [startAllF]
  exact foldE_inv _ TimerInv
    (fun r1 n h1 => TimerInv_startComponentF fuel r1 n h1) _ _ hr

theorem TimerInv_stopAllF (fuel : Nat) (r : Registry) (hr : TimerInv r) :
    TimerInv (stopAllF fuel r).1 := by
  rw [stopAllF]
  exact foldE_inv _ TimerInv
    (fun r1 n h1 => by
      by_cases h : (alLookup r1.components n).isSome
      · rw [if_pos h]
        exact TimerInv_stopComponentF fuel r1 n h1
      · rw [if_neg h]
        exact h1)
    _ _ hr

theorem TimerInv_pauseComponent (r : Registry) (name : String)
    (hr : TimerInv r) : TimerInv (pauseComponent r name).1 := by
  rw [pauseComponent]
  split
  · exact hr
  · split
    · exact hr
    · exact TimerInv_setComp hr (PComp_compPause _)

theorem TimerInv_pauseAllF (r : Registry) (hr : TimerInv r) :
    TimerInv (pauseAllF r).1 := by
  rw [pauseAllF]
  exact foldE_inv _ TimerInv
    (fun r1 n h1 => TimerInv_pauseComponent r1 n h1) _ _ hr

theorem TimerInv_resumeComponent (r : Registry) (name : String)
    (hr : TimerInv r) : TimerInv (resumeComponent r name).1 := by
  rw [resumeComponent]
  split
  · exact hr
  · split
    · rename_i c hc h2
      exact TimerInv_setComp hr (PComp_compStart (TimerInv_lookup hr hc))
    · exact hr

theorem TimerInv_resumeAllF (r : Registry) (hr : TimerInv r) :
    TimerInv (resumeAllF r).1 := by
  rw [resumeAllF]
  exact foldE_inv _ TimerInv
    (fun r1 n h1 => TimerInv_resumeComponent r1 n h1) _ _ hr

theorem TimerInv_updateStep (r : Registry) (name : String) (hr : TimerInv r) :
    TimerInv (updateStep r name).1 := by
  rw [updateStep]
  split
  · exact hr
  · split
    · split
      · exact hr
      · exact hr
    · exact hr

theorem TimerInv_updateF (r : Registry) (hr : TimerInv r) :
    TimerInv (updateF r).1 := by
  rw [updateF]
  exact foldE_inv _ TimerInv
    (fun r1 n h1 => TimerInv_updateStep r1 n h1) _ _ hr

theorem TimerInv_shutdownGo (ns : List String) : ∀ r, TimerInv r →
    TimerInv (ns.foldl shutdownStep r) := by
  induction ns with
  | nil => intro r hr; exact hr
  | cons n ns ih =>
    intro r hr
    rw [List.foldl_cons]
    refine ih _ ?_
    rw [shutdownStep]
    split
    · exact hr
    · split
      · exact hr
      · exact hr

theorem TimerInv_shutdownF (fuel : Nat) (r : Registry) (hr : TimerInv r) :
    TimerInv (shutdownF fuel r).1 := by
  rw [shutdownF]
  split
  · rename_i r1 e heq
    have h : TimerInv ((r1, some e) : Registry × Option Err).1 := by
      rw [← heq]
      exact TimerInv_stopAllF fuel r hr
    exact h
  · rename_i r1 heq
    have h : TimerInv ((r1, (none : Option Err)) : Registry × Option Err).1 := by
      rw [← heq]
      exact TimerInv_stopAllF fuel r hr
    exact TimerInv_shutdownGo _ _ h

/-- C9 counterexample: the invariant exactly as claimed — a timer HANDLE is
held iff the record is Started and update-capable — holds of the freshly
registered and of the started registry, but stop_component breaks it:
`_stop` stops the LoopingCall yet never clears the `_timer` attribute, so
the Stopped component still holds a (canceled) timer handle. -/
theorem timer_handle_invariant_counterexample :
    TimerHandleInvClaim rX0 ∧ TimerHandleInvClaim rX1 ∧
    ¬ TimerHandleInvClaim rX4 := by decide

/-- C9 (amended): the invariant that every registry operation actually
preserves is about the ARMED timer: a component record holds a running
timer iff its state is Started and it has update capability.  (After stop
or pause a canceled timer handle may remain held, so handle presence is not
invariant.)  Preservation holds for register (component construction),
deregister, start_component, start, stop_component, stop, pause_component,
pause, resume_component, resume, update and shutdown, at any fuel. -/
theorem timer_invariant_preserved (r : Registry) (hr : TimerInv r) :
    (∀ name i hu se sr dep, TimerInv (componentInit r name i hu se sr dep)) ∧
    (∀ fuel name, TimerInv (deregisterF fuel r name).1) ∧
    (∀ fuel name, TimerInv (startComponentF fuel r name).1) ∧
    (∀ fuel, TimerInv (startAllF fuel r).1) ∧
    (∀ fuel name, TimerInv (stopComponentF fuel r name).1) ∧
    (∀ fuel, TimerInv (stopAllF fuel r).1) ∧
    (∀ name, TimerInv (pauseComponent r name).1) ∧
    TimerInv (pauseAllF r).1 ∧
    (∀ name, TimerInv (resumeComponent r name).1) ∧
    TimerInv (resumeAllF r).1 ∧
    TimerInv (updateF r).1 ∧
    (∀ fuel, TimerInv (shutdownF fuel r).1) :=
  ⟨fun name i hu se sr dep => TimerInv_componentInit hr name i hu se sr dep,
   fun fuel name => TimerInv_deregisterF fuel r name hr,
   fun fuel name => TimerInv_startComponentF fuel r name hr,
   fun fuel => TimerInv_startAllF fuel r hr,
   fun fuel name => TimerInv_stopComponentF fuel r name hr,
   fun fuel => TimerInv_stopAllF fuel r hr,
   fun name => TimerInv_pauseComponent r name hr,
   TimerInv_pauseAllF r hr,
   fun name => TimerInv_resumeComponent r name hr,
   TimerInv_resumeAllF r hr,
   TimerInv_updateF r hr,
   fun fuel => TimerInv_shutdownF fuel r hr⟩

/-- Witness for the amended C9 theorem at the concrete started registry. -/
theorem timer_invariant_preserved_witness :
    TimerInv rX1 ∧
    (TimerInv (componentInit rX1 "y" 2 false none false none) ∧
     TimerInv (deregisterF 2 rX1 "x").1 ∧
     TimerInv (startComponentF 2 rX1 "x").1 ∧
     TimerInv (startAllF 2 rX1).1 ∧
     TimerInv (stopComponentF 2 rX1 "x").1 ∧
     TimerInv (stopAllF 2 rX1).1 ∧
     TimerInv (pauseComponent rX1 "x").1 ∧
     TimerInv (pauseAllF rX1).1 ∧
     TimerInv (resumeComponent rX1 "x").1 ∧
     TimerInv (resumeAllF rX1).1 ∧
     TimerInv (updateF rX1).1 ∧
     TimerInv (shutdownF 2 rX1).1) :=
  ⟨by decide, by
    obtain ⟨h1, h2, h3, h4, h5, h6, h7, h8, h9, h10, h11, h12⟩ :=
      timer_invariant_preserved rX1 (by decide)
    exact ⟨h1 "y" 2 false none false none, h2 2 "x", h3 2 "x", h4 2,
      h5 2 "x", h6 2, h7 "x", h8, h9 "x", h10, h11, h12 2⟩⟩

/-! ### C3 — dependency-chain start order -/

/-- C3: for a dependency chain a→b→c (a declares dependency b, b declares
dependency c), with all three registered and Stopped, start_component(a)
invokes the user start hooks in the order c, then b, then a — the appended
trace segment contains exactly one start hook per component, c strictly
before b strictly before a. -/
theorem start_chain_starts_deps_first (fuel : Nat) (a b c : String)
    (ca cb cc : Component) (t0 : List Ev)
    (hab : a ≠ b) (hac : a ≠ c) (hbc : b ≠ c)
    (hsa : ca.state = .stopped) (hsb : cb.state = .stopped)
    (hsc : cc.state = .stopped) :
    (startComponentF (fuel + 3)
        ⟨[(a, ca), (b, cb), (c, cc)], [(a, [b]), (b, [c])], t0⟩ a).1.trace =
      t0 ++ [Ev.startHook c, Ev.startHook b, Ev.startHook a] ∧
    (startComponentF (fuel + 3)
        ⟨[(a, ca), (b, cb), (c, cc)], [(a, [b]), (b, [c])], t0⟩ a).2 = none := by
  have e3 : fuel + 3 = fuel + 2 + 1 := rfl
  have e2 : fuel + 2 = fuel + 1 + 1 := rfl
  rw [e3]
  simp [startComponentF, e2, startBody, foldE_cons, foldE_nil, alLookup,
    alInsert, hab, hac, hbc, hsa, hsb, hsc, setComp, emit, compStart]

/-- Witness for C3 at a concrete three-component chain. -/
theorem start_chain_starts_deps_first_witness :
    (("a" : String) ≠ "b" ∧ ("a" : String) ≠ "c" ∧ ("b" : String) ≠ "c" ∧
     (newComponent "a" 1 false none false).state = .stopped ∧
     (newComponent "b" 1 true none false).state = .stopped ∧
     (newComponent "c" 1 false none false).state = .stopped) ∧
    ((startComponentF 3
        ⟨[("a", newComponent "a" 1 false none false),
          ("b", newComponent "b" 1 true none false),
          ("c", newComponent "c" 1 false none false)],
         [("a", ["b"]), ("b", ["c"])], []⟩ "a").1.trace =
      [] ++ [Ev.startHook "c", Ev.startHook "b", Ev.startHook "a"] ∧
     (startComponentF 3
        ⟨[("a", newComponent "a" 1 false none false),
          ("b", newComponent "b" 1 true none false),
          ("c", newComponent "c" 1 false none false)],
         [("a", ["b"]), ("b", ["c"])], []⟩ "a").2 = none) :=
  ⟨⟨by decide, by decide, by decide, by decide, by decide, by decide⟩,
   start_chain_starts_deps_first 0 "a" "b" "c"
     (newComponent "a" 1 false none false)
     (newComponent "b" 1 true none false)
     (newComponent "c" 1 false none false) []
     (by decide) (by decide) (by decide) (by decide) (by decide) (by decide)⟩

/-! ### C5 — update dispatch -/

/-- The update-hook events the update loop appends for a list of visited
names (used to state the update-trace equation). -/
def updEvs (m : List (String × Component)) : List String → List Ev
  | [] => []
  | n :: ns =>
    match alLookup m n with
    | none => updEvs m ns
    | some c =>
      if c.state = .started then Ev.updateHook n :: updEvs m ns
      else updEvs m ns

theorem updateGo (ns : List String) : ∀ r : Registry,
    (∀ n ∈ ns, ∃ cn, alLookup r.components n = some cn ∧
      (cn.state = .started → cn.hasUpdate = true)) →
    foldE updateStep ns r =
      ({ r with trace := r.trace ++ updEvs r.components ns }, none) := by
  induction ns with
  | nil => intro r h; simp [foldE_nil, updEvs]
  | cons n ns ih =>
    intro r h
    obtain ⟨cn, hcn, hcap⟩ := h n (List.mem_cons_self n ns)
    rw [foldE_cons]
    by_cases hst : cn.state = .started
    · have hcap2 := hcap hst
      have hstep : updateStep r n = (emit r (.updateHook n), none) := by
        simp [updateStep, hcn, hst, hcap2]
      rw [hstep]
      show foldE updateStep ns (emit r (.updateHook n)) = _
      rw [ih (emit r (.updateHook n))
        (fun n2 hn2 => h n2 (List.mem_cons_of_mem _ hn2))]
      simp [emit, updEvs, hcn, hst]
    · have hstep : updateStep r n = (r, none) := by
        simp [updateStep, hcn, hst]
      rw [hstep]
      show foldE updateStep ns r = _
      rw [ih r (fun n2 hn2 => h n2 (List.mem_cons_of_mem _ hn2))]
      simp [updEvs, hcn, hst]

theorem updEvs_cons_notmem (k : String) (c : Component)
    (rest : List (String × Component)) :
    ∀ ns : List String, k ∉ ns →
    updEvs ((k, c) :: rest) ns = updEvs rest ns := by
  intro ns
  induction ns with
  | nil => intro _; rfl
  | cons n ns ih =>
    intro hk
    have hkn : ¬(k = n) := fun h => hk (h ▸ List.mem_cons_self n ns)
    have htail : k ∉ ns := fun h => hk (List.mem_cons_of_mem _ h)
    rw [updEvs, updEvs, alLookup, if_neg hkn]
    cases h2 : alLookup rest n with
    | none => exact ih htail
    | some c2 =>
      by_cases hst : c2.state = .started <;> simp [hst, ih htail]

theorem updEvs_keys : ∀ m : List (String × Component),
    (m.map (fun p => p.1)).Nodup →
    updEvs m (m.map (fun p => p.1)) =
      (m.filter (fun p => decide (p.2.state = .started))).map
        (fun p => Ev.updateHook p.1) := by
  intro m
  induction m with
  | nil => intro _; rfl
  | cons p rest ih =>
    intro hnd
    obtain ⟨a, c⟩ := p
    rw [List.map_cons] at hnd
    have hnotin : a ∉ rest.map (fun p => p.1) := (List.nodup_cons.mp hnd).1
    have hnd2 := (List.nodup_cons.mp hnd).2
    have hla : alLookup ((a, c) :: rest) a = some c := by simp [alLookup]
    rw [List.map_cons, updEvs, hla, updEvs_cons_notmem a c rest _ hnotin,
      ih hnd2, List.filter_cons]
    by_cases hst : c.state = .started <;> simp [hst]

/-- Two components, "x" Started without update capability (registered
first) and "y" Started with update capability. -/
def rU : Registry :=
  componentInit (componentInit Registry.empty "x" 1 false none false none)
    "y" 1 true none false none

/-- ... both started. -/
def rU1 : Registry := (startAllF 1 rU).1

/-- C5 counterexample: with "x" Started but not update-capable and "y"
Started and update-capable, update() raises an AttributeError at "x"
(`self.components["x"].update()` with no update method) and aborts before
reaching "y": the update hook of the registered, Started component "y" is
never invoked, refuting "exactly those ... whose current state is
Started". -/
theorem update_skips_started_counterexample :
    (alLookup rU1.components "x").map Component.state = some CState.started ∧
    (alLookup rU1.components "y").map Component.state = some CState.started ∧
    (updateF rU1).2 = some Err.attributeError ∧
    Ev.updateHook "y" ∉ (updateF rU1).1.trace := by decide

/-- C5 (amended): provided every Started component has update capability,
update() succeeds and invokes the update hook of exactly the Started
components, in registry order; components in Stopped or Paused state are
skipped, and nothing but the trace changes.  (Without the capability
proviso the claim fails: a Started component without an update method makes
update() raise an AttributeError and later Started components go
unvisited.) -/
theorem update_hits_exactly_started (r : Registry)
    (hnd : (r.components.map (fun p => p.1)).Nodup)
    (hcap : ∀ p ∈ r.components, p.2.state = .started → p.2.hasUpdate = true) :
    (updateF r).2 = none ∧
    (updateF r).1.components = r.components ∧
    (updateF r).1.depend = r.depend ∧
    (updateF r).1.trace = r.trace ++
      (r.components.filter (fun p => decide (p.2.state = .started))).map
        (fun p => Ev.updateHook p.1) := by
  have hhyp : ∀ n ∈ r.components.map (fun p => p.1), ∃ cn,
      alLookup r.components n = some cn ∧
      (cn.state = .started → cn.hasUpdate = true) := by
    intro n hn
    have hsome := alLookup_isSome_of_mem_keys hn
    cases hlk : alLookup r.components n with
    | none => rw [hlk] at hsome; simp at hsome
    | some cn =>
      exact ⟨cn, rfl, fun hst => hcap (n, cn) (alLookup_mem hlk) hst⟩
  have h := updateGo (r.components.map (fun p => p.1)) r hhyp
  rw [updateF, h]
  refine ⟨rfl, rfl, rfl, ?_⟩
  show r.trace ++ updEvs r.components (r.components.map (fun p => p.1)) = _
  rw [updEvs_keys r.components hnd]

/-- A mixed registry: Started and capable, Stopped, Paused. -/
def rV : Registry :=
  ⟨[("s", ⟨"s", 1, true, .started, some ⟨true⟩, none, false⟩),
    ("t", ⟨"t", 1, false, .stopped, none, none, false⟩),
    ("u", ⟨"u", 1, true, .paused, some ⟨false⟩, none, false⟩)], [], []⟩

/-- Witness for the amended C5 theorem at the mixed registry. -/
theorem update_hits_exactly_started_witness :
    ((rV.components.map (fun p => p.1)).Nodup ∧
     (∀ p ∈ rV.components, p.2.state = .started → p.2.hasUpdate = true)) ∧
    ((updateF rV).2 = none ∧
     (updateF rV).1.components = rV.components ∧
     (updateF rV).1.depend = rV.depend ∧
     (updateF rV).1.trace = rV.trace ++
       (rV.components.filter (fun p => decide (p.2.state = .started))).map
         (fun p => Ev.updateHook p.1)) :=
  ⟨⟨by decide, by decide⟩,
   update_hits_exactly_started rV (by decide) (by decide)⟩

/-! ### C6 — shutdown fault isolation -/

theorem shutdownStep_components (r : Registry) (n : String) :
    (shutdownStep r n).components = r.components := by
  rw [shutdownStep]
  split
  · rfl
  · split <;> rfl

theorem shutdownGo_trace_mono (ns : List String) : ∀ (r : Registry) (e : Ev),
    e ∈ r.trace → e ∈ (ns.foldl shutdownStep r).trace := by
  induction ns with
  | nil => intro r e h; exact h
  | cons n ns ih =>
    intro r e h
    rw [List.foldl_cons]
    refine ih _ e ?_
    rw [shutdownStep]
    split
    · exact List.mem_append_left _ h
    · split
      · exact List.mem_append_left _ (List.mem_append_left _ h)
      · exact List.mem_append_left _ h

theorem shutdownGo_hooks (ns : List String) : ∀ r : Registry,
    (∀ n ∈ ns, (alLookup r.components n).isSome) →
    ∀ n ∈ ns, Ev.shutdownHook n ∈ (ns.foldl shutdownStep r).trace := by
  induction ns with
  | nil => intro r _ n hn; simp at hn
  | cons n0 ns ih =>
    intro r hall n hn
    rw [List.foldl_cons]
    rcases List.mem_cons.mp hn with rfl | hn2
    · have hp := hall n (List.mem_cons_self _ _)
      refine shutdownGo_trace_mono ns _ _ ?_
      rw [shutdownStep]
      cases hlk : alLookup r.components n with
      | none => rw [hlk] at hp; simp at hp
      | some c =>
        by_cases hraise : c.shutdownRaises = true
        · simp [hraise, emit]
        · simp [hraise, emit]
    · refine ih _ ?_ n hn2
      intro n2 hn22
      rw [shutdownStep_components]
      exact hall n2 (List.mem_cons_of_mem _ hn22)

/-- C6: after the stop phase completes, shutdown() invokes the shutdown
hook of every still-registered component — including every component whose
shutdown hook raises (the exception is caught, logged and absorbed) — and
shutdown itself returns no error.  No single failing hook prevents the
remaining hooks from running. -/
theorem shutdown_hooks_all_run (fuel : Nat) (r : Registry)
    (hstop : (stopAllF fuel r).2 = none) :
    (shutdownF fuel r).2 = none ∧
    ∀ n ∈ (stopAllF fuel r).1.components.map (fun p => p.1),
      Ev.shutdownHook n ∈ (shutdownF fuel r).1.trace := by
  rcases hs : stopAllF fuel r with ⟨r1, e1⟩
  rw [hs] at hstop
  cases e1 with
  | some e => exact absurd hstop (by simp)
  | none =>
    constructor
    · rw [shutdownF, hs]
    · intro n hn
      rw [shutdownF, hs]
      show Ev.shutdownHook n ∈
        ((r1.components.map (fun p => p.1)).foldl shutdownStep r1).trace
      exact shutdownGo_hooks _ r1
        (fun n2 hn2 => alLookup_isSome_of_mem_keys hn2) n hn

/-- Two Stopped components; the shutdown hook of "x" raises, that of "y"
does not. -/
def rS : Registry :=
  ⟨[("x", ⟨"x", 1, false, .stopped, none, none, true⟩),
    ("y", ⟨"y", 1, false, .stopped, none, none, false⟩)], [], []⟩

/-- Witness for C6: both shutdown hooks run even though the first raises. -/
theorem shutdown_hooks_all_run_witness :
    (stopAllF 1 rS).2 = none ∧
    ((shutdownF 1 rS).2 = none ∧
     Ev.shutdownHook "x" ∈ (shutdownF 1 rS).1.trace ∧
     Ev.shutdownHook "y" ∈ (shutdownF 1 rS).1.trace) :=
  ⟨by decide, by
    obtain ⟨h1, h2⟩ := shutdown_hooks_all_run 1 rS (by decide)
    exact ⟨h1, h2 "x" (by decide), h2 "y" (by decide)⟩⟩

/-! ### C7 — stop() snapshot discipline -/

/-- A registry whose stop-hook side effects form no chains: a component
whose stop hook deregisters a name only targets components whose own stop
hook has no side effect.  (The claim's scenario — one component's stop hook
deregistering a different, effect-free component — is an instance.) -/
def TameEffects (r : Registry) : Prop :=
  ∀ p ∈ r.components, ∀ m, p.2.stopEffect = some m →
    ∀ c2, alLookup r.components m = some c2 → c2.stopEffect = none

/-- Executable check for TameEffects, used to evaluate it on concrete
registries. -/
def tameCheck (r : Registry) : Bool :=
  r.components.all (fun p =>
    match p.2.stopEffect with
    | none => true
    | some m =>
      match alLookup r.components m with
      | none => true
      | some c2 => c2.stopEffect.isNone)

theorem tameCheck_tame {r : Registry} (h : tameCheck r = true) :
    TameEffects r := by
  intro p hp m hm c2 h2
  have hall := List.all_eq_true.mp h p hp
  rw [hm] at hall
  simpa [h2, Option.isNone_iff_eq_none] using hall

theorem TameEffects_setComp {r : Registry} {k : String} {c c2 : Component}
    (ht : TameEffects r) (hc : alLookup r.components k = some c)
    (heq : c2.stopEffect = c.stopEffect) : TameEffects (setComp r k c2) := by
  intro p hp m hm c3 h3
  have hsrc : ∃ q, q ∈ r.components ∧ q.2.stopEffect = some m := by
    rcases mem_alInsert hp with h | h
    · refine ⟨(k, c), alLookup_mem hc, ?_⟩
      rw [h] at hm
      rw [← heq]
      exact hm
    · exact ⟨p, h, hm⟩
  obtain ⟨q, hqmem, hqeff⟩ := hsrc
  have htgt := ht q hqmem m hqeff
  by_cases hmk : m = k
  · subst hmk
    have h3b : alLookup (alInsert r.components m c2) m = some c3 := h3
    rw [alLookup_alInsert_self] at h3b
    injection h3b with h3c
    have hceff : c.stopEffect = none := htgt c hc
    rw [← h3c, heq, hceff]
  · have h3b : alLookup (alInsert r.components k c2) m = some c3 := h3
    rw [alLookup_alInsert_ne hmk] at h3b
    exact htgt c3 h3b

theorem TameEffects_erase {r : Registry} (ht : TameEffects r) (k : String) :
    TameEffects { r with components := alErase r.components k } := by
  intro p hp m hm c3 h3
  have h3b : alLookup (alErase r.components k) m = some c3 := h3
  have hpb : p ∈ alErase r.components k := hp
  by_cases hmk : m = k
  · subst hmk
    rw [alLookup_alErase_self] at h3b
    cases h3b
  · rw [alLookup_alErase_ne hmk] at h3b
    exact ht p (mem_alErase hpb) m hm c3 h3b

theorem stopApply_present {r : Registry} {n : String} {c : Component}
    (hc : alLookup r.components n = some c) :
    stopApply r n = (setComp r n (compStop c), none) := by
  rw [stopApply, hc]

theorem stopApply_tame_ok {r : Registry} {n : String} {c : Component}
    (ht : TameEffects r) (hc : alLookup r.components n = some c) :
    (stopApply r n).2 = none ∧ TameEffects (stopApply r n).1 := by
  rw [stopApply_present hc]
  exact ⟨rfl, TameEffects_setComp ht hc rfl⟩

theorem stopComponentF_stopped (k : Nat) {r : Registry} {n : String}
    {c : Component} (hc : alLookup r.components n = some c)
    (hs : c.state = .stopped) : stopComponentF (k + 1) r n = (r, none) := by
  simp [stopComponentF, hc, hs]

theorem stopComponentF_noeffect (k : Nat) {r : Registry} {n : String}
    {c : Component} (hc : alLookup r.components n = some c)
    (heff : c.stopEffect = none) :
    stopComponentF (k + 1) r n =
      if c.state = .stopped then (r, none)
      else (setComp (emit r (.stopHook n)) n (compStop c), none) := by
  by_cases hs : c.state = .stopped
  · rw [if_pos hs]
    exact stopComponentF_stopped k hc hs
  · rw [if_neg hs]
    simp [stopComponentF, hc, hs, heff, stopApply, emit, setComp]

theorem emit_components (r : Registry) (e : Ev) :
    (emit r e).components = r.components := rfl

theorem stopComponentF_effect (k : Nat) {r : Registry} {n m : String}
    {c : Component} (hc : alLookup r.components n = some c)
    (hs : ¬c.state = .stopped) (heff : c.stopEffect = some m) :
    stopComponentF (k + 1) r n =
      match
        (match alLookup r.components m with
         | none => (emit r (.stopHook n), none)
         | some _ =>
           match stopComponentF k (emit r (.stopHook n)) m with
           | (r2, some e) => (r2, some e)
           | (r2, none) =>
             ({ r2 with components := alErase r2.components m }, none))
      with
      | (r2, some e) => (r2, some e)
      | (r2, none) => stopApply r2 n := by
  simp [stopComponentF, hc, hs, heff, emit_components]

/-- A stop_component call on a present name of a tame registry succeeds
(given recursion fuel at least 3) and keeps the registry tame. -/
theorem stopComponentF_tame_ok (k : Nat) (r : Registry) (n : String)
    (ht : TameEffects r) (hp : (alLookup r.components n).isSome) :
    (stopComponentF (k + 3) r n).2 = none ∧
    TameEffects (stopComponentF (k + 3) r n).1 := by
  cases hc : alLookup r.components n with
  | none => rw [hc] at hp; simp at hp
  | some c =>
    by_cases hs : c.state = .stopped
    · rw [show k + 3 = (k + 2) + 1 from rfl,
        stopComponentF_stopped (k + 2) hc hs]
      exact ⟨rfl, ht⟩
    · cases heff : c.stopEffect with
      | none =>
        rw [show k + 3 = (k + 2) + 1 from rfl,
          stopComponentF_noeffect (k + 2) hc heff, if_neg hs]
        have ht0 : TameEffects (emit r (Ev.stopHook n)) := ht
        have hc0 : alLookup (emit r (Ev.stopHook n)).components n = some c := hc
        exact ⟨rfl, TameEffects_setComp ht0 hc0 rfl⟩
      | some m =>
        rw [show k + 3 = (k + 2) + 1 from rfl,
          stopComponentF_effect (k + 2) hc hs heff]
        cases hcm : alLookup r.components m with
        | none =>
          have ht0 : TameEffects (emit r (Ev.stopHook n)) := ht
          have hc2 : alLookup (emit r (Ev.stopHook n)).components n = some c := hc
          exact stopApply_tame_ok ht0 hc2
        | some cm =>
          have hcmeff : cm.stopEffect = none :=
            ht (n, c) (alLookup_mem hc) m heff cm hcm
          have hnm : n ≠ m := by
            intro hn
            subst hn
            rw [hc] at hcm
            injection hcm with hcc
            rw [← hcc] at hcmeff
            rw [hcmeff] at heff
            cases heff
          have hcm2 : alLookup (emit r (Ev.stopHook n)).components m = some cm :=
            hcm
          rw [show k + 2 = (k + 1) + 1 from rfl,
            stopComponentF_noeffect (k + 1) hcm2 hcmeff]
          by_cases hcs : cm.state = .stopped
          · rw [if_pos hcs]
            have ht0 : TameEffects (emit r (Ev.stopHook n)) := ht
            have ht3 := TameEffects_erase ht0 m
            have hc3 : alLookup
                (alErase (emit r (Ev.stopHook n)).components m) n = some c := by
              have h4 : alLookup (alErase r.components m) n = some c := by
                rw [alLookup_alErase_ne hnm]
                exact hc
              exact h4
            exact stopApply_tame_ok ht3 hc3
          · rw [if_neg hcs]
            have ht2 : TameEffects (setComp
                (emit (emit r (Ev.stopHook n)) (Ev.stopHook m)) m
                (compStop cm)) := TameEffects_setComp ht hcm rfl
            have ht3 := TameEffects_erase ht2 m
            have hc3 : alLookup (alErase (setComp
                (emit (emit r (Ev.stopHook n)) (Ev.stopHook m)) m
                (compStop cm)).components m) n = some c := by
              have h4 : alLookup
                  (alErase (alInsert r.components m (compStop cm)) m) n =
                  some c := by
                rw [alLookup_alErase_ne hnm, alLookup_alInsert_ne hnm]
                exact hc
              exact h4
            exact stopApply_tame_ok ht3 hc3

theorem foldE_ok (f : Registry → String → Registry × Option Err)
    (Q : Registry → Prop)
    (hf : ∀ r n, Q r → (f r n).2 = none ∧ Q (f r n).1) :
    ∀ ns r, Q r → (foldE f ns r).2 = none ∧ Q (foldE f ns r).1 := by
  intro ns
  induction ns with
  | nil => intro r h; exact ⟨rfl, h⟩
  | cons n ns ih =>
    intro r h
    rw [foldE_cons]
    rcases hfn : f r n with ⟨r1, e1⟩
    obtain ⟨he, hq⟩ := hf r n h
    rw [hfn] at he hq
    cases e1 with
    | some e => exact absurd he (by simp)
    | none => exact ih r1 hq

/-- C7: stop() snapshots the registered names and re-checks membership
before each stop_component call, so on any tame registry the whole fan-out
returns cleanly (fuel at least 3): in particular, an earlier component's
stop hook deregistering a different, not-yet-visited component never makes
stop() fail — the deregistered name simply fails the membership re-check
and is skipped. -/
theorem stop_snapshot_tolerates_deregistration (k : Nat) (r : Registry)
    (ht : TameEffects r) :
    (stopAllF (k + 3) r).2 = none ∧ TameEffects (stopAllF (k + 3) r).1 := by
  rw [stopAllF]
  exact foldE_ok _ TameEffects
    (fun r1 n h1 => by
      by_cases h : (alLookup r1.components n).isSome
      · rw [if_pos h]
        exact stopComponentF_tame_ok k r1 n h1 h
      · rw [if_neg h]
        exact ⟨rfl, h1⟩)
    _ _ ht

/-- Component "a" (registered and hence visited first) has a stop hook that
deregisters component "b". -/
def rT : Registry :=
  componentInit
    (componentInit Registry.empty "a" 1 false (some "b") false none)
    "b" 1 false none false none

/-- ... both started. -/
def rT1 : Registry := (startAllF 1 rT).1

/-- Witness for C7 at the concrete scenario: stopping all components when
the first one's stop hook deregisters the second succeeds. -/
theorem stop_snapshot_tolerates_deregistration_witness :
    tameCheck rT1 = true ∧
    ((stopAllF 3 rT1).2 = none ∧ TameEffects (stopAllF 3 rT1).1) :=
  ⟨by decide,
   stop_snapshot_tolerates_deregistration 0 rT1 (tameCheck_tame (by decide))⟩

end Deluge
